import Mathlib

/-!
Shallow embedding of the fuzzermon relational schema declared in
semmc-fuzzer/fuzzermon/fuzzermon/main/models.py, together with the
storage-layer semantics that its field declarations induce:
uniqueness constraints (unique=True), declared maximum lengths
(max_length=...), foreign keys with on_delete=CASCADE, and the
automatically assigned submitted_at timestamp (auto_now_add=True).

Each table is a list of rows; every row carries the implicit
auto-incrementing primary key `id`.  A database state also carries the
next fresh primary key and a logical clock used for the automatic
timestamp.  Operations (inserts, a normal update, deletes) act on the
state; an insert or update violating a declared constraint returns
`none` and leaves the state unchanged, while deletes cascade along the
on_delete=CASCADE foreign keys.
-/

namespace Fuzzermon

/-- Row of table User: username = CharField(max_length=64, unique=True). -/
structure User where
  id : Nat
  username : String
deriving DecidableEq

/-- Row of table Arch: name = CharField(max_length=64, unique=True). -/
structure Arch where
  id : Nat
  name : String
deriving DecidableEq

/-- Row of table Host: hostname = CharField(max_length=128, unique=True);
arch = ForeignKey(Arch, on_delete=CASCADE). -/
structure Host where
  id : Nat
  hostname : String
  arch : Nat
deriving DecidableEq

/-- Row of table Batch: fuzzer_host = CharField(max_length=128);
testing_host = ForeignKey(Host, on_delete=CASCADE);
user = ForeignKey(User, on_delete=CASCADE);
submitted_at = DateTimeField(auto_now_add=True). -/
structure Batch where
  id : Nat
  fuzzer_host : String
  testing_host : Nat
  user : Nat
  submitted_at : Nat
deriving DecidableEq

/-- Row of table Opcode: name = CharField(max_length=128);
arch = ForeignKey(Arch, on_delete=CASCADE). -/
structure Opcode where
  id : Nat
  name : String
  arch : Nat
deriving DecidableEq

/-- Row of table TestSuccess: batch = ForeignKey(Batch, on_delete=CASCADE);
opcode = ForeignKey(Opcode, on_delete=CASCADE); count = IntegerField(). -/
structure TestSuccess where
  id : Nat
  batch : Nat
  opcode : Nat
  count : Int
deriving DecidableEq

/-- Row of table TestFailure: batch = ForeignKey(Batch, on_delete=CASCADE);
opcode = ForeignKey(Opcode, on_delete=CASCADE);
pretty = CharField(max_length=256); arguments = TextField(). -/
structure TestFailure where
  id : Nat
  batch : Nat
  opcode : Nat
  pretty : String
  arguments : String
deriving DecidableEq

/-- Row of table TestFailureState:
test_failure = ForeignKey(TestFailure, on_delete=CASCADE);
location = CharField(max_length=128); expected_value = CharField(max_length=256);
actual_value = CharField(max_length=256). -/
structure TestFailureState where
  id : Nat
  test_failure : Nat
  location : String
  expected_value : String
  actual_value : String
deriving DecidableEq

/-- A database state: one list of rows per table of models.py, plus the
next fresh primary key and the logical clock of the persistence layer. -/
structure DB where
  users : List User
  archs : List Arch
  hosts : List Host
  batches : List Batch
  opcodes : List Opcode
  testSuccesses : List TestSuccess
  testFailures : List TestFailure
  testFailureStates : List TestFailureState
  nextId : Nat
  now : Nat
deriving DecidableEq

/-- The empty database, as created by the framework before any insert. -/
def emptyDB : DB :=
  { users := [], archs := [], hosts := [], batches := [], opcodes := []
    testSuccesses := [], testFailures := [], testFailureStates := []
    nextId := 1, now := 0 }

/-- There is an Arch row with primary key `i`. -/
abbrev hasArch (db : DB) (i : Nat) : Prop := ∃ a ∈ db.archs, a.id = i

/-- There is a User row with primary key `i`. -/
abbrev hasUser (db : DB) (i : Nat) : Prop := ∃ u ∈ db.users, u.id = i

/-- There is a Host row with primary key `i`. -/
abbrev hasHost (db : DB) (i : Nat) : Prop := ∃ h ∈ db.hosts, h.id = i

/-- There is a Batch row with primary key `i`. -/
abbrev hasBatch (db : DB) (i : Nat) : Prop := ∃ b ∈ db.batches, b.id = i

/-- There is an Opcode row with primary key `i`. -/
abbrev hasOpcode (db : DB) (i : Nat) : Prop := ∃ o ∈ db.opcodes, o.id = i

/-- There is a TestFailure row with primary key `i`. -/
abbrev hasTestFailure (db : DB) (i : Nat) : Prop := ∃ f ∈ db.testFailures, f.id = i

/-- Primary keys at which a cascading delete is rooted, one list per
table.  Deleting a row of table T corresponds to roots with exactly one
id in the component for T. -/
structure Roots where
  users : List Nat := []
  archs : List Nat := []
  hosts : List Nat := []
  batches : List Nat := []
  opcodes : List Nat := []
  testSuccesses : List Nat := []
  testFailures : List Nat := []
  testFailureStates : List Nat := []
deriving DecidableEq

/-- A User row dies only when it is itself a deletion root: nothing
references User by an on_delete=CASCADE key pointing into User's parents. -/
abbrev userDead (r : Roots) (u : User) : Prop := u.id ∈ r.users

/-- An Arch row dies only when it is itself a deletion root. -/
abbrev archDead (r : Roots) (a : Arch) : Prop := a.id ∈ r.archs

/-- A Host row dies when it is a root or its arch foreign key
(Host.arch, on_delete=CASCADE) points to a dying Arch. -/
abbrev hostDead (r : Roots) (h : Host) : Prop :=
  h.id ∈ r.hosts ∨ h.arch ∈ r.archs

/-- Primary keys of the Host rows of `db` dying under roots `r`. -/
def deadHostIds (db : DB) (r : Roots) : List Nat :=
  (db.hosts.filter (fun h => decide (hostDead r h))).map (fun h => h.id)

/-- A Batch row dies when it is a root, or its testing_host foreign key
(on_delete=CASCADE) points to a dying Host, or its user foreign key
(on_delete=CASCADE) points to a dying User. -/
abbrev batchDead (db : DB) (r : Roots) (b : Batch) : Prop :=
  b.id ∈ r.batches ∨ b.testing_host ∈ deadHostIds db r ∨ b.user ∈ r.users

/-- Primary keys of the Batch rows of `db` dying under roots `r`. -/
def deadBatchIds (db : DB) (r : Roots) : List Nat :=
  (db.batches.filter (fun b => decide (batchDead db r b))).map (fun b => b.id)

/-- An Opcode row dies when it is a root or its arch foreign key
(Opcode.arch, on_delete=CASCADE) points to a dying Arch. -/
abbrev opcodeDead (r : Roots) (o : Opcode) : Prop :=
  o.id ∈ r.opcodes ∨ o.arch ∈ r.archs

/-- Primary keys of the Opcode rows of `db` dying under roots `r`. -/
def deadOpcodeIds (db : DB) (r : Roots) : List Nat :=
  (db.opcodes.filter (fun o => decide (opcodeDead r o))).map (fun o => o.id)

/-- A TestSuccess row dies when it is a root or one of its foreign keys
(TestSuccess.batch / TestSuccess.opcode, both on_delete=CASCADE) points
to a dying Batch or Opcode. -/
abbrev testSuccessDead (db : DB) (r : Roots) (t : TestSuccess) : Prop :=
  t.id ∈ r.testSuccesses ∨ t.batch ∈ deadBatchIds db r ∨ t.opcode ∈ deadOpcodeIds db r

/-- A TestFailure row dies when it is a root or one of its foreign keys
(TestFailure.batch / TestFailure.opcode, both on_delete=CASCADE) points
to a dying Batch or Opcode. -/
abbrev testFailureDead (db : DB) (r : Roots) (t : TestFailure) : Prop :=
  t.id ∈ r.testFailures ∨ t.batch ∈ deadBatchIds db r ∨ t.opcode ∈ deadOpcodeIds db r

/-- Primary keys of the TestFailure rows of `db` dying under roots `r`. -/
def deadTestFailureIds (db : DB) (r : Roots) : List Nat :=
  (db.testFailures.filter (fun t => decide (testFailureDead db r t))).map (fun t => t.id)

/-- A TestFailureState row dies when it is a root or its test_failure
foreign key (on_delete=CASCADE) points to a dying TestFailure. -/
abbrev testFailureStateDead (db : DB) (r : Roots) (s : TestFailureState) : Prop :=
  s.id ∈ r.testFailureStates ∨ s.test_failure ∈ deadTestFailureIds db r

/-- Cascading delete: remove the rows rooted at `r` together with every
row transitively reachable from them along the on_delete=CASCADE foreign
keys of models.py.  The clock and key counter are untouched here. -/
def cascadeDelete (db : DB) (r : Roots) : DB :=
  { db with
    users := db.users.filter (fun u => decide (¬ userDead r u))
    archs := db.archs.filter (fun a => decide (¬ archDead r a))
    hosts := db.hosts.filter (fun h => decide (¬ hostDead r h))
    batches := db.batches.filter (fun b => decide (¬ batchDead db r b))
    opcodes := db.opcodes.filter (fun o => decide (¬ opcodeDead r o))
    testSuccesses := db.testSuccesses.filter (fun t => decide (¬ testSuccessDead db r t))
    testFailures := db.testFailures.filter (fun t => decide (¬ testFailureDead db r t))
    testFailureStates := db.testFailureStates.filter (fun s => decide (¬ testFailureStateDead db r s)) }

/-- The operations the persistence layer exposes on the schema: one
insert per table (fields as in models.py, primary key and submitted_at
assigned by the layer, never by the caller), the normal update of a
Batch's mutable fields, and one delete per table. -/
inductive Op where
  | insertUser (username : String)
  | insertArch (name : String)
  | insertHost (hostname : String) (arch : Nat)
  | insertBatch (fuzzer_host : String) (testing_host : Nat) (user : Nat)
  | insertOpcode (name : String) (arch : Nat)
  | insertTestSuccess (batch : Nat) (opcode : Nat) (count : Int)
  | insertTestFailure (batch : Nat) (opcode : Nat) (pretty : String) (arguments : String)
  | insertTestFailureState (test_failure : Nat) (location : String)
      (expected_value : String) (actual_value : String)
  | updateBatch (id : Nat) (fuzzer_host : String) (testing_host : Nat) (user : Nat)
  | deleteUser (id : Nat)
  | deleteArch (id : Nat)
  | deleteHost (id : Nat)
  | deleteBatch (id : Nat)
  | deleteOpcode (id : Nat)
  | deleteTestSuccess (id : Nat)
  | deleteTestFailure (id : Nat)
  | deleteTestFailureState (id : Nat)
deriving DecidableEq

/-- One step of the storage layer.  Inserts enforce the declared
max_length bounds, the unique=True constraints of User.username,
Arch.name and Host.hostname, and the existence of every referenced
foreign key; a violated constraint yields `none`.  Batch.submitted_at is
set from the layer's clock: Op.insertBatch carries no timestamp
argument, so application code never chooses it.  The normal update of a
Batch rewrites its mutable fields only.  Deletes cascade. -/
def applyOp (db : DB) (op : Op) : Option DB :=
  match op with
  | Op.insertUser username =>
      if username.length ≤ 64 ∧ ∀ u ∈ db.users, u.username ≠ username then
        some { db with users := db.users ++ [{ id := db.nextId, username := username }]
                       nextId := db.nextId + 1, now := db.now + 1 }
      else none
  | Op.insertArch name =>
      if name.length ≤ 64 ∧ ∀ a ∈ db.archs, a.name ≠ name then
        some { db with archs := db.archs ++ [{ id := db.nextId, name := name }]
                       nextId := db.nextId + 1, now := db.now + 1 }
      else none
  | Op.insertHost hostname arch =>
      if hostname.length ≤ 128 ∧ (∀ h ∈ db.hosts, h.hostname ≠ hostname) ∧ hasArch db arch then
        some { db with hosts := db.hosts ++ [{ id := db.nextId, hostname := hostname, arch := arch }]
                       nextId := db.nextId + 1, now := db.now + 1 }
      else none
  | Op.insertBatch fuzzer_host testing_host user =>
      if fuzzer_host.length ≤ 128 ∧ hasHost db testing_host ∧ hasUser db user then
        some { db with batches := db.batches ++
                 [{ id := db.nextId, fuzzer_host := fuzzer_host, testing_host := testing_host
                    user := user, submitted_at := db.now }]
                       nextId := db.nextId + 1, now := db.now + 1 }
      else none
  | Op.insertOpcode name arch =>
      if name.length ≤ 128 ∧ hasArch db arch then
        some { db with opcodes := db.opcodes ++ [{ id := db.nextId, name := name, arch := arch }]
                       nextId := db.nextId + 1, now := db.now + 1 }
      else none
  | Op.insertTestSuccess batch opcode count =>
      if hasBatch db batch ∧ hasOpcode db opcode then
        some { db with testSuccesses := db.testSuccesses ++
                 [{ id := db.nextId, batch := batch, opcode := opcode, count := count }]
                       nextId := db.nextId + 1, now := db.now + 1 }
      else none
  | Op.insertTestFailure batch opcode pretty arguments =>
      if pretty.length ≤ 256 ∧ hasBatch db batch ∧ hasOpcode db opcode then
        some { db with testFailures := db.testFailures ++
                 [{ id := db.nextId, batch := batch, opcode := opcode
                    pretty := pretty, arguments := arguments }]
                       nextId := db.nextId + 1, now := db.now + 1 }
      else none
  | Op.insertTestFailureState test_failure location expected_value actual_value =>
      if location.length ≤ 128 ∧ expected_value.length ≤ 256 ∧ actual_value.length ≤ 256 ∧
         hasTestFailure db test_failure then
        some { db with testFailureStates := db.testFailureStates ++
                 [{ id := db.nextId, test_failure := test_failure, location := location
                    expected_value := expected_value, actual_value := actual_value }]
                       nextId := db.nextId + 1, now := db.now + 1 }
      else none
  | Op.updateBatch i fuzzer_host testing_host user =>
      if fuzzer_host.length ≤ 128 ∧ hasHost db testing_host ∧ hasUser db user then
        some { db with batches := db.batches.map (fun b =>
                 if b.id = i then
                   { b with fuzzer_host := fuzzer_host, testing_host := testing_host, user := user }
                 else b)
                       now := db.now + 1 }
      else none
  | Op.deleteUser i => some { cascadeDelete db { users := [i] } with now := db.now + 1 }
  | Op.deleteArch i => some { cascadeDelete db { archs := [i] } with now := db.now + 1 }
  | Op.deleteHost i => some { cascadeDelete db { hosts := [i] } with now := db.now + 1 }
  | Op.deleteBatch i => some { cascadeDelete db { batches := [i] } with now := db.now + 1 }
  | Op.deleteOpcode i => some { cascadeDelete db { opcodes := [i] } with now := db.now + 1 }
  | Op.deleteTestSuccess i =>
      some { cascadeDelete db { testSuccesses := [i] } with now := db.now + 1 }
  | Op.deleteTestFailure i =>
      some { cascadeDelete db { testFailures := [i] } with now := db.now + 1 }
  | Op.deleteTestFailureState i =>
      some { cascadeDelete db { testFailureStates := [i] } with now := db.now + 1 }

/-- Run a sequence of operations; a failed operation leaves the state
unchanged (the transaction is rolled back). -/
def runOps (db : DB) : List Op → DB
  | [] => db
  | op :: ops => runOps ((applyOp db op).getD db) ops

/-- A database state is reachable when some operation sequence produces
it from the empty database. -/
def Reachable (db : DB) : Prop := ∃ ops : List Op, runOps emptyDB ops = db

/-! ### Helper lemmas about lists -/

theorem forall_mem_append_one {α : Type} {l : List α} {x : α} {p : α → Prop}
    (hl : ∀ a ∈ l, p a) (hx : p x) : ∀ a ∈ l ++ [x], p a := by
  intro a ha
  rcases List.mem_append.mp ha with h | h
  · exact hl a h
  · rw [List.mem_singleton] at h
    subst h
    exact hx

theorem exists_mem_append_one {α : Type} {l : List α} {x : α} {p : α → Prop}
    (h : ∃ a ∈ l, p a) : ∃ a ∈ l ++ [x], p a := by
  obtain ⟨a, hm, hp⟩ := h
  exact ⟨a, List.mem_append_left _ hm, hp⟩

theorem forall_mem_filter_of_forall_mem {α : Type} {l : List α} {q : α → Bool} {p : α → Prop}
    (h : ∀ a ∈ l, p a) : ∀ a ∈ l.filter q, p a :=
  fun a ha => h a (List.mem_filter.mp ha).1

/-! ### Membership characterizations of the cascading delete -/

theorem mem_deadHostIds (db : DB) (r : Roots) (x : Nat) :
    x ∈ deadHostIds db r ↔ ∃ h ∈ db.hosts, hostDead r h ∧ h.id = x := by
  simp only [deadHostIds, List.mem_map, List.mem_filter, decide_eq_true_eq]
  constructor
  · rintro ⟨h, ⟨hm, hd⟩, hx⟩; exact ⟨h, hm, hd, hx⟩
  · rintro ⟨h, hm, hd, hx⟩; exact ⟨h, ⟨hm, hd⟩, hx⟩

theorem mem_deadBatchIds (db : DB) (r : Roots) (x : Nat) :
    x ∈ deadBatchIds db r ↔ ∃ b ∈ db.batches, batchDead db r b ∧ b.id = x := by
  simp only [deadBatchIds, List.mem_map, List.mem_filter, decide_eq_true_eq]
  constructor
  · rintro ⟨b, ⟨hm, hd⟩, hx⟩; exact ⟨b, hm, hd, hx⟩
  · rintro ⟨b, hm, hd, hx⟩; exact ⟨b, ⟨hm, hd⟩, hx⟩

theorem mem_deadOpcodeIds (db : DB) (r : Roots) (x : Nat) :
    x ∈ deadOpcodeIds db r ↔ ∃ o ∈ db.opcodes, opcodeDead r o ∧ o.id = x := by
  simp only [deadOpcodeIds, List.mem_map, List.mem_filter, decide_eq_true_eq]
  constructor
  · rintro ⟨o, ⟨hm, hd⟩, hx⟩; exact ⟨o, hm, hd, hx⟩
  · rintro ⟨o, hm, hd, hx⟩; exact ⟨o, ⟨hm, hd⟩, hx⟩

theorem mem_deadTestFailureIds (db : DB) (r : Roots) (x : Nat) :
    x ∈ deadTestFailureIds db r ↔ ∃ t ∈ db.testFailures, testFailureDead db r t ∧ t.id = x := by
  simp only [deadTestFailureIds, List.mem_map, List.mem_filter, decide_eq_true_eq]
  constructor
  · rintro ⟨t, ⟨hm, hd⟩, hx⟩; exact ⟨t, hm, hd, hx⟩
  · rintro ⟨t, hm, hd, hx⟩; exact ⟨t, ⟨hm, hd⟩, hx⟩

theorem mem_cascade_users (db : DB) (r : Roots) (u : User) :
    u ∈ (cascadeDelete db r).users ↔ u ∈ db.users ∧ ¬ userDead r u := by
  simp only [cascadeDelete, List.mem_filter, decide_eq_true_eq]

theorem mem_cascade_archs (db : DB) (r : Roots) (a : Arch) :
    a ∈ (cascadeDelete db r).archs ↔ a ∈ db.archs ∧ ¬ archDead r a := by
  simp only [cascadeDelete, List.mem_filter, decide_eq_true_eq]

theorem mem_cascade_hosts (db : DB) (r : Roots) (h : Host) :
    h ∈ (cascadeDelete db r).hosts ↔ h ∈ db.hosts ∧ ¬ hostDead r h := by
  simp only [cascadeDelete, List.mem_filter, decide_eq_true_eq]

theorem mem_cascade_batches (db : DB) (r : Roots) (b : Batch) :
    b ∈ (cascadeDelete db r).batches ↔ b ∈ db.batches ∧ ¬ batchDead db r b := by
  simp only [cascadeDelete, List.mem_filter, decide_eq_true_eq]

theorem mem_cascade_opcodes (db : DB) (r : Roots) (o : Opcode) :
    o ∈ (cascadeDelete db r).opcodes ↔ o ∈ db.opcodes ∧ ¬ opcodeDead r o := by
  simp only [cascadeDelete, List.mem_filter, decide_eq_true_eq]

theorem mem_cascade_testSuccesses (db : DB) (r : Roots) (t : TestSuccess) :
    t ∈ (cascadeDelete db r).testSuccesses ↔ t ∈ db.testSuccesses ∧ ¬ testSuccessDead db r t := by
  simp only [cascadeDelete, List.mem_filter, decide_eq_true_eq]

theorem mem_cascade_testFailures (db : DB) (r : Roots) (t : TestFailure) :
    t ∈ (cascadeDelete db r).testFailures ↔ t ∈ db.testFailures ∧ ¬ testFailureDead db r t := by
  simp only [cascadeDelete, List.mem_filter, decide_eq_true_eq]

theorem mem_cascade_testFailureStates (db : DB) (r : Roots) (s : TestFailureState) :
    s ∈ (cascadeDelete db r).testFailureStates ↔
      s ∈ db.testFailureStates ∧ ¬ testFailureStateDead db r s := by
  simp only [cascadeDelete, List.mem_filter, decide_eq_true_eq]

/-! ### Invariants of reachable states -/

/-- The unique=True constraints: pairwise distinct User.username,
Arch.name and Host.hostname values. -/
def NamesUnique (db : DB) : Prop :=
  db.users.Pairwise (fun u v => u.username ≠ v.username) ∧
  db.archs.Pairwise (fun a b => a.name ≠ b.name) ∧
  db.hosts.Pairwise (fun a b => a.hostname ≠ b.hostname)

/-- Referential integrity: every foreign-key field of every row
references an existing row of the target table. -/
def RefIntegrity (db : DB) : Prop :=
  (∀ h ∈ db.hosts, hasArch db h.arch) ∧
  (∀ b ∈ db.batches, hasHost db b.testing_host ∧ hasUser db b.user) ∧
  (∀ o ∈ db.opcodes, hasArch db o.arch) ∧
  (∀ t ∈ db.testSuccesses, hasBatch db t.batch ∧ hasOpcode db t.opcode) ∧
  (∀ t ∈ db.testFailures, hasBatch db t.batch ∧ hasOpcode db t.opcode) ∧
  (∀ s ∈ db.testFailureStates, hasTestFailure db s.test_failure)

/-- The declared max_length bounds of every CharField of models.py;
TestFailure.arguments is a TextField and has no bound. -/
def LengthsOK (db : DB) : Prop :=
  (∀ u ∈ db.users, u.username.length ≤ 64) ∧
  (∀ a ∈ db.archs, a.name.length ≤ 64) ∧
  (∀ h ∈ db.hosts, h.hostname.length ≤ 128) ∧
  (∀ b ∈ db.batches, b.fuzzer_host.length ≤ 128) ∧
  (∀ o ∈ db.opcodes, o.name.length ≤ 128) ∧
  (∀ t ∈ db.testFailures, t.pretty.length ≤ 256) ∧
  (∀ s ∈ db.testFailureStates,
     s.location.length ≤ 128 ∧ s.expected_value.length ≤ 256 ∧ s.actual_value.length ≤ 256)

/-- A predicate on database states that every successful operation keeps. -/
def Preserved (P : DB → Prop) : Prop :=
  ∀ db op db', applyOp db op = some db' → P db → P db'

theorem namesUnique_cascade (db : DB) (r : Roots) (hInv : NamesUnique db) :
    NamesUnique (cascadeDelete db r) := by
  obtain ⟨hu, ha, hh⟩ := hInv
  exact ⟨hu.sublist (List.filter_sublist _),
         ha.sublist (List.filter_sublist _),
         hh.sublist (List.filter_sublist _)⟩

theorem lengthsOK_cascade (db : DB) (r : Roots) (hInv : LengthsOK db) :
    LengthsOK (cascadeDelete db r) := by
  obtain ⟨h1, h2, h3, h4, h5, h6, h7⟩ := hInv
  exact ⟨forall_mem_filter_of_forall_mem h1, forall_mem_filter_of_forall_mem h2,
         forall_mem_filter_of_forall_mem h3, forall_mem_filter_of_forall_mem h4,
         forall_mem_filter_of_forall_mem h5, forall_mem_filter_of_forall_mem h6,
         forall_mem_filter_of_forall_mem h7⟩

theorem refIntegrity_cascade (db : DB) (r : Roots) (hInv : RefIntegrity db) :
    RefIntegrity (cascadeDelete db r) := by
  obtain ⟨h1, h2, h3, h4, h5, h6⟩ := hInv
  refine ⟨?_, ?_, ?_, ?_, ?_, ?_⟩
  · intro h hm
    rw [mem_cascade_hosts] at hm
    obtain ⟨hm, hnd⟩ := hm
    obtain ⟨a, ham, haid⟩ := h1 h hm
    refine ⟨a, ?_, haid⟩
    rw [mem_cascade_archs]
    exact ⟨ham, fun had => hnd (Or.inr (haid ▸ had))⟩
  · intro b hm
    rw [mem_cascade_batches] at hm
    obtain ⟨hm, hnd⟩ := hm
    obtain ⟨⟨h0, h0m, h0id⟩, u0, u0m, u0id⟩ := h2 b hm
    constructor
    · refine ⟨h0, ?_, h0id⟩
      rw [mem_cascade_hosts]
      exact ⟨h0m, fun h0d =>
        hnd (Or.inr (Or.inl ((mem_deadHostIds db r _).mpr ⟨h0, h0m, h0d, h0id⟩)))⟩
    · refine ⟨u0, ?_, u0id⟩
      rw [mem_cascade_users]
      exact ⟨u0m, fun u0d => hnd (Or.inr (Or.inr (u0id ▸ u0d)))⟩
  · intro o hm
    rw [mem_cascade_opcodes] at hm
    obtain ⟨hm, hnd⟩ := hm
    obtain ⟨a, ham, haid⟩ := h3 o hm
    refine ⟨a, ?_, haid⟩
    rw [mem_cascade_archs]
    exact ⟨ham, fun had => hnd (Or.inr (haid ▸ had))⟩
  · intro t hm
    rw [mem_cascade_testSuccesses] at hm
    obtain ⟨hm, hnd⟩ := hm
    obtain ⟨⟨b0, b0m, b0id⟩, o0, o0m, o0id⟩ := h4 t hm
    constructor
    · refine ⟨b0, ?_, b0id⟩
      rw [mem_cascade_batches]
      exact ⟨b0m, fun b0d =>
        hnd (Or.inr (Or.inl ((mem_deadBatchIds db r _).mpr ⟨b0, b0m, b0d, b0id⟩)))⟩
    · refine ⟨o0, ?_, o0id⟩
      rw [mem_cascade_opcodes]
      exact ⟨o0m, fun o0d =>
        hnd (Or.inr (Or.inr ((mem_deadOpcodeIds db r _).mpr ⟨o0, o0m, o0d, o0id⟩)))⟩
  · intro t hm
    rw [mem_cascade_testFailures] at hm
    obtain ⟨hm, hnd⟩ := hm
    obtain ⟨⟨b0, b0m, b0id⟩, o0, o0m, o0id⟩ := h5 t hm
    constructor
    · refine ⟨b0, ?_, b0id⟩
      rw [mem_cascade_batches]
      exact ⟨b0m, fun b0d =>
        hnd (Or.inr (Or.inl ((mem_deadBatchIds db r _).mpr ⟨b0, b0m, b0d, b0id⟩)))⟩
    · refine ⟨o0, ?_, o0id⟩
      rw [mem_cascade_opcodes]
      exact ⟨o0m, fun o0d =>
        hnd (Or.inr (Or.inr ((mem_deadOpcodeIds db r _).mpr ⟨o0, o0m, o0d, o0id⟩)))⟩
  · intro s hm
    rw [mem_cascade_testFailureStates] at hm
    obtain ⟨hm, hnd⟩ := hm
    obtain ⟨f0, f0m, f0id⟩ := h6 s hm
    refine ⟨f0, ?_, f0id⟩
    rw [mem_cascade_testFailures]
    exact ⟨f0m, fun f0d =>
      hnd (Or.inr ((mem_deadTestFailureIds db r _).mpr ⟨f0, f0m, f0d, f0id⟩))⟩

/-- The normal update of a Batch never changes a primary key. -/
theorem updateBatch_id_map (i : Nat) (fh : String) (th u : Nat) (b : Batch) :
    (if b.id = i then
       { b with fuzzer_host := fh, testing_host := th, user := u }
     else b).id = b.id := by
  split <;> rfl

/-- The normal update of a Batch never changes a submission timestamp. -/
theorem updateBatch_submitted_at_map (i : Nat) (fh : String) (th u : Nat) (b : Batch) :
    (if b.id = i then
       { b with fuzzer_host := fh, testing_host := th, user := u }
     else b).submitted_at = b.submitted_at := by
  split <;> rfl

theorem namesUnique_preserved : Preserved NamesUnique := by
  rintro db op db' h ⟨hu, ha, hh⟩
  cases op with
  | insertUser username =>
      simp only [applyOp] at h
      split at h
      case isTrue hc =>
        cases h
        refine ⟨List.pairwise_append.mpr ⟨hu, by simp, ?_⟩, ha, hh⟩
        intro a hmem b hb
        rw [List.mem_singleton] at hb
        subst hb
        exact hc.2 a hmem
      case isFalse => cases h
  | insertArch name =>
      simp only [applyOp] at h
      split at h
      case isTrue hc =>
        cases h
        refine ⟨hu, List.pairwise_append.mpr ⟨ha, by simp, ?_⟩, hh⟩
        intro a hmem b hb
        rw [List.mem_singleton] at hb
        subst hb
        exact hc.2 a hmem
      case isFalse => cases h
  | insertHost hostname arch =>
      simp only [applyOp] at h
      split at h
      case isTrue hc =>
        cases h
        refine ⟨hu, ha, List.pairwise_append.mpr ⟨hh, by simp, ?_⟩⟩
        intro a hmem b hb
        rw [List.mem_singleton] at hb
        subst hb
        exact hc.2.1 a hmem
      case isFalse => cases h
  | insertBatch fuzzer_host testing_host user =>
      simp only [applyOp] at h
      split at h
      case isTrue hc => cases h; exact ⟨hu, ha, hh⟩
      case isFalse => cases h
  | insertOpcode name arch =>
      simp only [applyOp] at h
      split at h
      case isTrue hc => cases h; exact ⟨hu, ha, hh⟩
      case isFalse => cases h
  | insertTestSuccess batch opcode count =>
      simp only [applyOp] at h
      split at h
      case isTrue hc => cases h; exact ⟨hu, ha, hh⟩
      case isFalse => cases h
  | insertTestFailure batch opcode pretty arguments =>
      simp only [applyOp] at h
      split at h
      case isTrue hc => cases h; exact ⟨hu, ha, hh⟩
      case isFalse => cases h
  | insertTestFailureState test_failure location expected_value actual_value =>
      simp only [applyOp] at h
      split at h
      case isTrue hc => cases h; exact ⟨hu, ha, hh⟩
      case isFalse => cases h
  | updateBatch i fh th u =>
      simp only [applyOp] at h
      split at h
      case isTrue hc => cases h; exact ⟨hu, ha, hh⟩
      case isFalse => cases h
  | deleteUser i =>
      simp only [applyOp] at h
      cases h
      exact namesUnique_cascade db _ ⟨hu, ha, hh⟩
  | deleteArch i =>
      simp only [applyOp] at h
      cases h
      exact namesUnique_cascade db _ ⟨hu, ha, hh⟩
  | deleteHost i =>
      simp only [applyOp] at h
      cases h
      exact namesUnique_cascade db _ ⟨hu, ha, hh⟩
  | deleteBatch i =>
      simp only [applyOp] at h
      cases h
      exact namesUnique_cascade db _ ⟨hu, ha, hh⟩
  | deleteOpcode i =>
      simp only [applyOp] at h
      cases h
      exact namesUnique_cascade db _ ⟨hu, ha, hh⟩
  | deleteTestSuccess i =>
      simp only [applyOp] at h
      cases h
      exact namesUnique_cascade db _ ⟨hu, ha, hh⟩
  | deleteTestFailure i =>
      simp only [applyOp] at h
      cases h
      exact namesUnique_cascade db _ ⟨hu, ha, hh⟩
  | deleteTestFailureState i =>
      simp only [applyOp] at h
      cases h
      exact namesUnique_cascade db _ ⟨hu, ha, hh⟩

theorem refIntegrity_preserved : Preserved RefIntegrity := by
  rintro db op db' h ⟨h1, h2, h3, h4, h5, h6⟩
  cases op with
  | insertUser username =>
      simp only [applyOp] at h
      split at h
      case isTrue hc =>
        cases h
        exact ⟨h1, fun b hm => ⟨(h2 b hm).1, exists_mem_append_one (h2 b hm).2⟩, h3, h4, h5, h6⟩
      case isFalse => cases h
  | insertArch name =>
      simp only [applyOp] at h
      split at h
      case isTrue hc =>
        cases h
        exact ⟨fun x hm => exists_mem_append_one (h1 x hm), h2,
               fun o hm => exists_mem_append_one (h3 o hm), h4, h5, h6⟩
      case isFalse => cases h
  | insertHost hostname arch =>
      simp only [applyOp] at h
      split at h
      case isTrue hc =>
        cases h
        exact ⟨forall_mem_append_one h1 hc.2.2,
               fun b hm => ⟨exists_mem_append_one (h2 b hm).1, (h2 b hm).2⟩, h3, h4, h5, h6⟩
      case isFalse => cases h
  | insertBatch fuzzer_host testing_host user =>
      simp only [applyOp] at h
      split at h
      case isTrue hc =>
        cases h
        exact ⟨h1, forall_mem_append_one h2 ⟨hc.2.1, hc.2.2⟩, h3,
               fun t hm => ⟨exists_mem_append_one (h4 t hm).1, (h4 t hm).2⟩,
               fun t hm => ⟨exists_mem_append_one (h5 t hm).1, (h5 t hm).2⟩, h6⟩
      case isFalse => cases h
  | insertOpcode name arch =>
      simp only [applyOp] at h
      split at h
      case isTrue hc =>
        cases h
        exact ⟨h1, h2, forall_mem_append_one h3 hc.2,
               fun t hm => ⟨(h4 t hm).1, exists_mem_append_one (h4 t hm).2⟩,
               fun t hm => ⟨(h5 t hm).1, exists_mem_append_one (h5 t hm).2⟩, h6⟩
      case isFalse => cases h
  | insertTestSuccess batch opcode count =>
      simp only [applyOp] at h
      split at h
      case isTrue hc =>
        cases h
        exact ⟨h1, h2, h3, forall_mem_append_one h4 hc, h5, h6⟩
      case isFalse => cases h
  | insertTestFailure batch opcode pretty arguments =>
      simp only [applyOp] at h
      split at h
      case isTrue hc =>
        cases h
        exact ⟨h1, h2, h3, h4, forall_mem_append_one h5 ⟨hc.2.1, hc.2.2⟩,
               fun s hm => exists_mem_append_one (h6 s hm)⟩
      case isFalse => cases h
  | insertTestFailureState test_failure location expected_value actual_value =>
      simp only [applyOp] at h
      split at h
      case isTrue hc =>
        cases h
        exact ⟨h1, h2, h3, h4, h5, forall_mem_append_one h6 hc.2.2.2⟩
      case isFalse => cases h
  | updateBatch i fh th u =>
      simp only [applyOp] at h
      split at h
      case isTrue hc =>
        cases h
        refine ⟨h1, ?_, h3, ?_, ?_, h6⟩
        · intro b' hm
          obtain ⟨b, hbm, rfl⟩ := List.mem_map.mp hm
          by_cases hid : b.id = i
          · rw [if_pos hid]
            exact ⟨hc.2.1, hc.2.2⟩
          · rw [if_neg hid]
            exact h2 b hbm
        · intro t hm
          obtain ⟨⟨b, hbm, hbid⟩, ho⟩ := h4 t hm
          refine ⟨⟨_, List.mem_map_of_mem _ hbm, ?_⟩, ho⟩
          rw [updateBatch_id_map]
          exact hbid
        · intro t hm
          obtain ⟨⟨b, hbm, hbid⟩, ho⟩ := h5 t hm
          refine ⟨⟨_, List.mem_map_of_mem _ hbm, ?_⟩, ho⟩
          rw [updateBatch_id_map]
          exact hbid
      case isFalse => cases h
  | deleteUser i =>
      simp only [applyOp] at h
      cases h
      exact refIntegrity_cascade db _ ⟨h1, h2, h3, h4, h5, h6⟩
  | deleteArch i =>
      simp only [applyOp] at h
      cases h
      exact refIntegrity_cascade db _ ⟨h1, h2, h3, h4, h5, h6⟩
  | deleteHost i =>
      simp only [applyOp] at h
      cases h
      exact refIntegrity_cascade db _ ⟨h1, h2, h3, h4, h5, h6⟩
  | deleteBatch i =>
      simp only [applyOp] at h
      cases h
      exact refIntegrity_cascade db _ ⟨h1, h2, h3, h4, h5, h6⟩
  | deleteOpcode i =>
      simp only [applyOp] at h
      cases h
      exact refIntegrity_cascade db _ ⟨h1, h2, h3, h4, h5, h6⟩
  | deleteTestSuccess i =>
      simp only [applyOp] at h
      cases h
      exact refIntegrity_cascade db _ ⟨h1, h2, h3, h4, h5, h6⟩
  | deleteTestFailure i =>
      simp only [applyOp] at h
      cases h
      exact refIntegrity_cascade db _ ⟨h1, h2, h3, h4, h5, h6⟩
  | deleteTestFailureState i =>
      simp only [applyOp] at h
      cases h
      exact refIntegrity_cascade db _ ⟨h1, h2, h3, h4, h5, h6⟩

theorem lengthsOK_preserved : Preserved LengthsOK := by
  rintro db op db' h ⟨l1, l2, l3, l4, l5, l6, l7⟩
  cases op with
  | insertUser username =>
      simp only [applyOp] at h
      split at h
      case isTrue hc =>
        cases h
        exact ⟨forall_mem_append_one l1 hc.1, l2, l3, l4, l5, l6, l7⟩
      case isFalse => cases h
  | insertArch name =>
      simp only [applyOp] at h
      split at h
      case isTrue hc =>
        cases h
        exact ⟨l1, forall_mem_append_one l2 hc.1, l3, l4, l5, l6, l7⟩
      case isFalse => cases h
  | insertHost hostname arch =>
      simp only [applyOp] at h
      split at h
      case isTrue hc =>
        cases h
        exact ⟨l1, l2, forall_mem_append_one l3 hc.1, l4, l5, l6, l7⟩
      case isFalse => cases h
  | insertBatch fuzzer_host testing_host user =>
      simp only [applyOp] at h
      split at h
      case isTrue hc =>
        cases h
        exact ⟨l1, l2, l3, forall_mem_append_one l4 hc.1, l5, l6, l7⟩
      case isFalse => cases h
  | insertOpcode name arch =>
      simp only [applyOp] at h
      split at h
      case isTrue hc =>
        cases h
        exact ⟨l1, l2, l3, l4, forall_mem_append_one l5 hc.1, l6, l7⟩
      case isFalse => cases h
  | insertTestSuccess batch opcode count =>
      simp only [applyOp] at h
      split at h
      case isTrue hc => cases h; exact ⟨l1, l2, l3, l4, l5, l6, l7⟩
      case isFalse => cases h
  | insertTestFailure batch opcode pretty arguments =>
      simp only [applyOp] at h
      split at h
      case isTrue hc =>
        cases h
        exact ⟨l1, l2, l3, l4, l5, forall_mem_append_one l6 hc.1, l7⟩
      case isFalse => cases h
  | insertTestFailureState test_failure location expected_value actual_value =>
      simp only [applyOp] at h
      split at h
      case isTrue hc =>
        cases h
        exact ⟨l1, l2, l3, l4, l5, l6,
               forall_mem_append_one l7 ⟨hc.1, hc.2.1, hc.2.2.1⟩⟩
      case isFalse => cases h
  | updateBatch i fh th u =>
      simp only [applyOp] at h
      split at h
      case isTrue hc =>
        cases h
        refine ⟨l1, l2, l3, ?_, l5, l6, l7⟩
        intro b' hm
        obtain ⟨b, hbm, rfl⟩ := List.mem_map.mp hm
        by_cases hid : b.id = i
        · rw [if_pos hid]
          exact hc.1
        · rw [if_neg hid]
          exact l4 b hbm
      case isFalse => cases h
  | deleteUser i =>
      simp only [applyOp] at h
      cases h
      exact lengthsOK_cascade db _ ⟨l1, l2, l3, l4, l5, l6, l7⟩
  | deleteArch i =>
      simp only [applyOp] at h
      cases h
      exact lengthsOK_cascade db _ ⟨l1, l2, l3, l4, l5, l6, l7⟩
  | deleteHost i =>
      simp only [applyOp] at h
      cases h
      exact lengthsOK_cascade db _ ⟨l1, l2, l3, l4, l5, l6, l7⟩
  | deleteBatch i =>
      simp only [applyOp] at h
      cases h
      exact lengthsOK_cascade db _ ⟨l1, l2, l3, l4, l5, l6, l7⟩
  | deleteOpcode i =>
      simp only [applyOp] at h
      cases h
      exact lengthsOK_cascade db _ ⟨l1, l2, l3, l4, l5, l6, l7⟩
  | deleteTestSuccess i =>
      simp only [applyOp] at h
      cases h
      exact lengthsOK_cascade db _ ⟨l1, l2, l3, l4, l5, l6, l7⟩
  | deleteTestFailure i =>
      simp only [applyOp] at h
      cases h
      exact lengthsOK_cascade db _ ⟨l1, l2, l3, l4, l5, l6, l7⟩
  | deleteTestFailureState i =>
      simp only [applyOp] at h
      cases h
      exact lengthsOK_cascade db _ ⟨l1, l2, l3, l4, l5, l6, l7⟩

/-- A preserved predicate holding initially holds after any run. -/
theorem preserved_runOps {P : DB → Prop} (hP : Preserved P) :
    ∀ (ops : List Op) (db : DB), P db → P (runOps db ops) := by
  intro ops
  induction ops with
  | nil => intro db hdb; exact hdb
  | cons op ops ih =>
      intro db hdb
      simp only [runOps]
      cases hop : applyOp db op with
      | none => exact ih db hdb
      | some db2 => exact ih db2 (hP db op db2 hop hdb)

/-- A preserved predicate holding of the empty database holds of every
reachable state. -/
theorem reachable_invariant {P : DB → Prop} (hP : Preserved P) (h0 : P emptyDB) :
    ∀ db, Reachable db → P db := by
  rintro db ⟨ops, rfl⟩
  exact preserved_runOps hP ops emptyDB h0

theorem namesUnique_empty : NamesUnique emptyDB := by
  refine ⟨?_, ?_, ?_⟩ <;> simp [emptyDB]

theorem refIntegrity_empty : RefIntegrity emptyDB := by
  refine ⟨?_, ?_, ?_, ?_, ?_, ?_⟩ <;> simp [emptyDB]

theorem lengthsOK_empty : LengthsOK emptyDB := by
  refine ⟨?_, ?_, ?_, ?_, ?_, ?_, ?_⟩ <;> simp [emptyDB]

/-! ### A concrete reachable state

The spec's worked example (Arch ARM, Host host1, User alice, one Batch),
extended with two same-named Opcodes, two TestSuccess rows on the same
(Batch, Opcode) pair, one TestFailure without states and one TestFailure
with two identical states.  Primary keys are assigned 1..12 in order. -/

def masterOps : List Op :=
  [ Op.insertArch ("ARM"),
    Op.insertHost ("host1") 1,
    Op.insertUser ("alice"),
    Op.insertBatch ("fuzzer1") 2 3,
    Op.insertOpcode ("ADD") 1,
    Op.insertOpcode ("ADD") 1,
    Op.insertTestSuccess 4 5 0,
    Op.insertTestSuccess 4 5 (-1),
    Op.insertTestFailure 4 5 ("p") ("a"),
    Op.insertTestFailure 4 6 ("q") ("b"),
    Op.insertTestFailureState 10 ("r0") ("x") ("y"),
    Op.insertTestFailureState 10 ("r0") ("x") ("y") ]

/-- The database state the example sequence reaches. -/
def dbM : DB := runOps emptyDB masterOps

/-- First three operations of the spec's worked example. -/
def opsAHU : List Op :=
  [ Op.insertArch ("ARM"), Op.insertHost ("host1") 1, Op.insertUser ("alice") ]

/-- State after Arch/Host/User of the worked example (keys 1, 2, 3). -/
def db3 : DB := runOps emptyDB opsAHU

/-- State after additionally inserting the example Batch (key 4). -/
def db4 : DB := (applyOp db3 (Op.insertBatch ("fuzzer1") 2 3)).getD db3

/-- State after a normal update of the example Batch's mutable fields. -/
def db5 : DB := (applyOp db4 (Op.updateBatch 4 ("fuzzer2") 2 3)).getD db4

/-! ### The claims -/

/-- C1: in every reachable state the User.username, Arch.name and
Host.hostname values are pairwise distinct; an insert of a User, Arch or
Host whose username/name/hostname equals that of an existing row fails
(and a failed operation leaves the state unchanged), while an insert
with a fresh value within the declared length succeeds. -/
theorem c1_unique_names_enforced :
    (∀ db, Reachable db →
       db.users.Pairwise (fun u v => u.username ≠ v.username) ∧
       db.archs.Pairwise (fun a b => a.name ≠ b.name) ∧
       db.hosts.Pairwise (fun a b => a.hostname ≠ b.hostname)) ∧
    (∀ db op, applyOp db op = none → runOps db [op] = db) ∧
    (∀ db username, (∃ u ∈ db.users, u.username = username) →
       applyOp db (Op.insertUser username) = none) ∧
    (∀ db name, (∃ a ∈ db.archs, a.name = name) →
       applyOp db (Op.insertArch name) = none) ∧
    (∀ db hostname arch, (∃ h0 ∈ db.hosts, h0.hostname = hostname) →
       applyOp db (Op.insertHost hostname arch) = none) ∧
    (∀ db username, username.length ≤ 64 → (∀ u ∈ db.users, u.username ≠ username) →
       (applyOp db (Op.insertUser username)).isSome = true) ∧
    (∀ db name, name.length ≤ 64 → (∀ a ∈ db.archs, a.name ≠ name) →
       (applyOp db (Op.insertArch name)).isSome = true) ∧
    (∀ db hostname arch, hostname.length ≤ 128 →
       (∀ h0 ∈ db.hosts, h0.hostname ≠ hostname) → hasArch db arch →
       (applyOp db (Op.insertHost hostname arch)).isSome = true) := by
  refine ⟨?_, ?_, ?_, ?_, ?_, ?_, ?_, ?_⟩
  · exact fun db h => reachable_invariant namesUnique_preserved namesUnique_empty db h
  · intro db op h
    simp only [runOps, h, Option.getD_none]
  · rintro db username ⟨u, hm, he⟩
    simp only [applyOp]
    rw [if_neg]
    rintro ⟨-, hall⟩
    exact hall u hm he
  · rintro db name ⟨a, hm, he⟩
    simp only [applyOp]
    rw [if_neg]
    rintro ⟨-, hall⟩
    exact hall a hm he
  · rintro db hostname arch ⟨h0, hm, he⟩
    simp only [applyOp]
    rw [if_neg]
    rintro ⟨-, hall, -⟩
    exact hall h0 hm he
  · intro db username hlen hall
    simp only [applyOp]
    rw [if_pos ⟨hlen, hall⟩]
    rfl
  · intro db name hlen hall
    simp only [applyOp]
    rw [if_pos ⟨hlen, hall⟩]
    rfl
  · intro db hostname arch hlen hall hA
    simp only [applyOp]
    rw [if_pos ⟨hlen, hall, hA⟩]
    rfl

/-- Witness for C1 on the worked example: a second Arch named ARM is
rejected and changes nothing, a fresh arch name is accepted, and the
reached state has pairwise distinct usernames. -/
theorem c1_witness :
    applyOp dbM (Op.insertArch ("ARM")) = none ∧
    runOps dbM [Op.insertArch ("ARM")] = dbM ∧
    (applyOp dbM (Op.insertArch ("x86"))).isSome = true ∧
    dbM.users.Pairwise (fun u v => u.username ≠ v.username) := by
  obtain ⟨hinv, hnone, -, hdupA, -, -, hfreshA, -⟩ := c1_unique_names_enforced
  have h1 := hdupA dbM ("ARM") (by decide)
  exact ⟨h1, hnone dbM (Op.insertArch ("ARM")) h1,
         hfreshA dbM ("x86") (by decide) (by decide),
         (hinv dbM ⟨masterOps, rfl⟩).1⟩

/-- C2: deleting an Arch removes exactly its Host and Opcode rows, the
Batch rows on those Hosts, the TestSuccess and TestFailure rows on those
Batches or Opcodes, and the TestFailureState rows of those TestFailures;
User rows and all unrelated rows survive unchanged. -/
theorem c2_deleteArch_cascades : ∀ (db : DB) (aid : Nat),
    ((runOps db [Op.deleteArch aid]).users = db.users) ∧
    (∀ a : Arch, a ∈ (runOps db [Op.deleteArch aid]).archs ↔ a ∈ db.archs ∧ a.id ≠ aid) ∧
    (∀ h0 : Host, h0 ∈ (runOps db [Op.deleteArch aid]).hosts ↔ h0 ∈ db.hosts ∧ h0.arch ≠ aid) ∧
    (∀ o : Opcode, o ∈ (runOps db [Op.deleteArch aid]).opcodes ↔ o ∈ db.opcodes ∧ o.arch ≠ aid) ∧
    (∀ b : Batch, b ∈ (runOps db [Op.deleteArch aid]).batches ↔
       b ∈ db.batches ∧ ¬ ∃ h0 ∈ db.hosts, h0.arch = aid ∧ h0.id = b.testing_host) ∧
    (∀ t : TestSuccess, t ∈ (runOps db [Op.deleteArch aid]).testSuccesses ↔
       t ∈ db.testSuccesses ∧
       ¬ (∃ b ∈ db.batches, (∃ h0 ∈ db.hosts, h0.arch = aid ∧ h0.id = b.testing_host) ∧
            b.id = t.batch) ∧
       ¬ (∃ o ∈ db.opcodes, o.arch = aid ∧ o.id = t.opcode)) ∧
    (∀ t : TestFailure, t ∈ (runOps db [Op.deleteArch aid]).testFailures ↔
       t ∈ db.testFailures ∧
       ¬ (∃ b ∈ db.batches, (∃ h0 ∈ db.hosts, h0.arch = aid ∧ h0.id = b.testing_host) ∧
            b.id = t.batch) ∧
       ¬ (∃ o ∈ db.opcodes, o.arch = aid ∧ o.id = t.opcode)) ∧
    (∀ s : TestFailureState, s ∈ (runOps db [Op.deleteArch aid]).testFailureStates ↔
       s ∈ db.testFailureStates ∧
       ¬ ∃ f ∈ db.testFailures,
           ((∃ b ∈ db.batches, (∃ h0 ∈ db.hosts, h0.arch = aid ∧ h0.id = b.testing_host) ∧
               b.id = f.batch) ∨
            (∃ o ∈ db.opcodes, o.arch = aid ∧ o.id = f.opcode)) ∧ f.id = s.test_failure) := by
  intro db aid
  refine ⟨?_, ?_, ?_, ?_, ?_, ?_, ?_, ?_⟩
  · show (cascadeDelete db { archs := [aid] }).users = db.users
    rw [cascadeDelete]
    exact List.filter_eq_self.mpr (fun u _ => by simp [userDead])
  · intro a
    show a ∈ (cascadeDelete db { archs := [aid] }).archs ↔ _
    rw [mem_cascade_archs]
    simp [archDead]
  · intro h0
    show h0 ∈ (cascadeDelete db { archs := [aid] }).hosts ↔ _
    rw [mem_cascade_hosts]
    simp [hostDead]
  · intro o
    show o ∈ (cascadeDelete db { archs := [aid] }).opcodes ↔ _
    rw [mem_cascade_opcodes]
    simp [opcodeDead]
  · intro b
    show b ∈ (cascadeDelete db { archs := [aid] }).batches ↔ _
    rw [mem_cascade_batches]
    simp only [batchDead, mem_deadHostIds, hostDead]
    simp
  · intro t
    show t ∈ (cascadeDelete db { archs := [aid] }).testSuccesses ↔ _
    rw [mem_cascade_testSuccesses]
    simp only [testSuccessDead, mem_deadBatchIds, mem_deadOpcodeIds, batchDead,
               mem_deadHostIds, hostDead, opcodeDead]
    simp
  · intro t
    show t ∈ (cascadeDelete db { archs := [aid] }).testFailures ↔ _
    rw [mem_cascade_testFailures]
    simp only [testFailureDead, mem_deadBatchIds, mem_deadOpcodeIds, batchDead,
               mem_deadHostIds, hostDead, opcodeDead]
    simp
  · intro s
    show s ∈ (cascadeDelete db { archs := [aid] }).testFailureStates ↔ _
    rw [mem_cascade_testFailureStates]
    simp only [testFailureStateDead, mem_deadTestFailureIds, testFailureDead,
               mem_deadBatchIds, mem_deadOpcodeIds, batchDead, mem_deadHostIds,
               hostDead, opcodeDead]
    simp

/-- C3: every reachable state satisfies referential integrity, the
invariant is preserved by every successful operation, and an insert
referencing a nonexistent foreign key fails at the storage layer. -/
theorem c3_referential_integrity :
    (∀ db, Reachable db → RefIntegrity db) ∧
    Preserved RefIntegrity ∧
    (∀ db hostname arch, ¬ hasArch db arch →
       applyOp db (Op.insertHost hostname arch) = none) ∧
    (∀ db fh th u, ¬ hasHost db th → applyOp db (Op.insertBatch fh th u) = none) ∧
    (∀ db fh th u, ¬ hasUser db u → applyOp db (Op.insertBatch fh th u) = none) ∧
    (∀ db name arch, ¬ hasArch db arch → applyOp db (Op.insertOpcode name arch) = none) ∧
    (∀ db b o c, ¬ hasBatch db b → applyOp db (Op.insertTestSuccess b o c) = none) ∧
    (∀ db b o c, ¬ hasOpcode db o → applyOp db (Op.insertTestSuccess b o c) = none) ∧
    (∀ db b o p q, ¬ hasBatch db b → applyOp db (Op.insertTestFailure b o p q) = none) ∧
    (∀ db b o p q, ¬ hasOpcode db o → applyOp db (Op.insertTestFailure b o p q) = none) ∧
    (∀ db f l e v, ¬ hasTestFailure db f →
       applyOp db (Op.insertTestFailureState f l e v) = none) := by
  refine ⟨?_, refIntegrity_preserved, ?_, ?_, ?_, ?_, ?_, ?_, ?_, ?_, ?_⟩
  · exact fun db h => reachable_invariant refIntegrity_preserved refIntegrity_empty db h
  · intro db hostname arch hA
    simp only [applyOp]
    rw [if_neg]
    rintro ⟨-, -, hx⟩
    exact hA hx
  · intro db fh th u hH
    simp only [applyOp]
    rw [if_neg]
    rintro ⟨-, hx, -⟩
    exact hH hx
  · intro db fh th u hU
    simp only [applyOp]
    rw [if_neg]
    rintro ⟨-, -, hx⟩
    exact hU hx
  · intro db name arch hA
    simp only [applyOp]
    rw [if_neg]
    rintro ⟨-, hx⟩
    exact hA hx
  · intro db b o c hB
    simp only [applyOp]
    rw [if_neg]
    rintro ⟨hx, -⟩
    exact hB hx
  · intro db b o c hO
    simp only [applyOp]
    rw [if_neg]
    rintro ⟨-, hx⟩
    exact hO hx
  · intro db b o p q hB
    simp only [applyOp]
    rw [if_neg]
    rintro ⟨-, hx, -⟩
    exact hB hx
  · intro db b o p q hO
    simp only [applyOp]
    rw [if_neg]
    rintro ⟨-, -, hx⟩
    exact hO hx
  · intro db f l e v hF
    simp only [applyOp]
    rw [if_neg]
    rintro ⟨-, -, -, hx⟩
    exact hF hx

/-- Witness for C3 on the worked example: the reached state satisfies
referential integrity, and inserts referencing the nonexistent key 99
are rejected. -/
theorem c3_witness :
    RefIntegrity dbM ∧
    applyOp dbM (Op.insertHost ("host2") 99) = none ∧
    applyOp dbM (Op.insertBatch ("f2") 99 3) = none ∧
    applyOp dbM (Op.insertTestSuccess 99 5 7) = none ∧
    applyOp dbM (Op.insertTestFailureState 99 ("r1") ("x") ("y")) = none := by
  obtain ⟨hinv, -, hH, hBth, -, -, hTSb, -, -, -, hTFS⟩ := c3_referential_integrity
  exact ⟨hinv dbM ⟨masterOps, rfl⟩,
         hH dbM ("host2") 99 (by decide),
         hBth dbM ("f2") 99 3 (by decide),
         hTSb dbM 99 5 7 (by decide),
         hTFS dbM 99 ("r1") ("x") ("y") (by decide)⟩

/-- C4: a successful Batch insert appends a row whose submitted_at is
the storage layer's current clock (Op.insertBatch carries no timestamp
argument, so application code never chooses it), and after any
successful operation every Batch row either keeps the id and
submitted_at of a pre-existing row or is the row just created, stamped
with the pre-operation clock. -/
theorem c4_submitted_at_auto :
    (∀ db fh th u db', applyOp db (Op.insertBatch fh th u) = some db' →
       db'.batches = db.batches ++
         [{ id := db.nextId, fuzzer_host := fh, testing_host := th, user := u,
            submitted_at := db.now }]) ∧
    (∀ db op db', applyOp db op = some db' → ∀ b' ∈ db'.batches,
       (∃ b ∈ db.batches, b.id = b'.id ∧ b.submitted_at = b'.submitted_at) ∨
       b'.submitted_at = db.now) := by
  constructor
  · intro db fh th u db' h
    simp only [applyOp] at h
    split at h
    case isTrue hc => cases h; rfl
    case isFalse => cases h
  · intro db op db' h b' hmem
    cases op with
    | insertUser username =>
        simp only [applyOp] at h
        split at h
        case isTrue hc => cases h; exact Or.inl ⟨b', hmem, rfl, rfl⟩
        case isFalse => cases h
    | insertArch name =>
        simp only [applyOp] at h
        split at h
        case isTrue hc => cases h; exact Or.inl ⟨b', hmem, rfl, rfl⟩
        case isFalse => cases h
    | insertHost hostname arch =>
        simp only [applyOp] at h
        split at h
        case isTrue hc => cases h; exact Or.inl ⟨b', hmem, rfl, rfl⟩
        case isFalse => cases h
    | insertBatch fh th u =>
        simp only [applyOp] at h
        split at h
        case isTrue hc =>
          cases h
          rcases List.mem_append.mp hmem with hm | hm
          · exact Or.inl ⟨b', hm, rfl, rfl⟩
          · rw [List.mem_singleton] at hm
            subst hm
            exact Or.inr rfl
        case isFalse => cases h
    | insertOpcode name arch =>
        simp only [applyOp] at h
        split at h
        case isTrue hc => cases h; exact Or.inl ⟨b', hmem, rfl, rfl⟩
        case isFalse => cases h
    | insertTestSuccess batch opcode count =>
        simp only [applyOp] at h
        split at h
        case isTrue hc => cases h; exact Or.inl ⟨b', hmem, rfl, rfl⟩
        case isFalse => cases h
    | insertTestFailure batch opcode pretty arguments =>
        simp only [applyOp] at h
        split at h
        case isTrue hc => cases h; exact Or.inl ⟨b', hmem, rfl, rfl⟩
        case isFalse => cases h
    | insertTestFailureState test_failure location expected_value actual_value =>
        simp only [applyOp] at h
        split at h
        case isTrue hc => cases h; exact Or.inl ⟨b', hmem, rfl, rfl⟩
        case isFalse => cases h
    | updateBatch i fh th u =>
        simp only [applyOp] at h
        split at h
        case isTrue hc =>
          cases h
          obtain ⟨b, hbm, rfl⟩ := List.mem_map.mp hmem
          exact Or.inl ⟨b, hbm, (updateBatch_id_map i fh th u b).symm,
                        (updateBatch_submitted_at_map i fh th u b).symm⟩
        case isFalse => cases h
    | deleteUser i =>
        simp only [applyOp] at h
        cases h
        exact Or.inl ⟨b', ((mem_cascade_batches db _ b').mp hmem).1, rfl, rfl⟩
    | deleteArch i =>
        simp only [applyOp] at h
        cases h
        exact Or.inl ⟨b', ((mem_cascade_batches db _ b').mp hmem).1, rfl, rfl⟩
    | deleteHost i =>
        simp only [applyOp] at h
        cases h
        exact Or.inl ⟨b', ((mem_cascade_batches db _ b').mp hmem).1, rfl, rfl⟩
    | deleteBatch i =>
        simp only [applyOp] at h
        cases h
        exact Or.inl ⟨b', ((mem_cascade_batches db _ b').mp hmem).1, rfl, rfl⟩
    | deleteOpcode i =>
        simp only [applyOp] at h
        cases h
        exact Or.inl ⟨b', ((mem_cascade_batches db _ b').mp hmem).1, rfl, rfl⟩
    | deleteTestSuccess i =>
        simp only [applyOp] at h
        cases h
        exact Or.inl ⟨b', ((mem_cascade_batches db _ b').mp hmem).1, rfl, rfl⟩
    | deleteTestFailure i =>
        simp only [applyOp] at h
        cases h
        exact Or.inl ⟨b', ((mem_cascade_batches db _ b').mp hmem).1, rfl, rfl⟩
    | deleteTestFailureState i =>
        simp only [applyOp] at h
        cases h
        exact Or.inl ⟨b', ((mem_cascade_batches db _ b').mp hmem).1, rfl, rfl⟩

/-- Witness for C4 on the worked example: the Batch insert after
Arch/Host/User stamps the clock value 3, and a normal update of that
Batch keeps id 4 and submitted_at 3. -/
theorem c4_witness :
    (db4.batches = db3.batches ++
       [{ id := db3.nextId, fuzzer_host := "fuzzer1", testing_host := 2, user := 3,
          submitted_at := db3.now }]) ∧
    ((∃ b ∈ db4.batches,
        b.id = ({ id := 4, fuzzer_host := "fuzzer2", testing_host := 2, user := 3,
                  submitted_at := 3 } : Batch).id ∧
        b.submitted_at = ({ id := 4, fuzzer_host := "fuzzer2", testing_host := 2, user := 3,
                            submitted_at := 3 } : Batch).submitted_at) ∨
     ({ id := 4, fuzzer_host := "fuzzer2", testing_host := 2, user := 3,
        submitted_at := 3 } : Batch).submitted_at = db4.now) :=
  ⟨c4_submitted_at_auto.1 db3 ("fuzzer1") 2 3 db4 (by decide),
   c4_submitted_at_auto.2 db4 (Op.updateBatch 4 ("fuzzer2") 2 3) db5 (by decide) _ (by decide)⟩

/-- C5: deleting a Batch removes exactly its TestSuccess/TestFailure
rows and their TestFailureState rows; deleting a TestFailure removes
exactly its TestFailureState rows; deleting a Host removes exactly its
Batch rows and their transitive dependents; all other rows survive. -/
theorem c5_delete_dependents : ∀ (db : DB) (bid fid hid : Nat),
    (((runOps db [Op.deleteBatch bid]).users = db.users) ∧
     ((runOps db [Op.deleteBatch bid]).archs = db.archs) ∧
     ((runOps db [Op.deleteBatch bid]).hosts = db.hosts) ∧
     ((runOps db [Op.deleteBatch bid]).opcodes = db.opcodes) ∧
     (∀ b : Batch, b ∈ (runOps db [Op.deleteBatch bid]).batches ↔
        b ∈ db.batches ∧ b.id ≠ bid) ∧
     (∀ t : TestSuccess, t ∈ (runOps db [Op.deleteBatch bid]).testSuccesses ↔
        t ∈ db.testSuccesses ∧ ¬ ∃ b ∈ db.batches, b.id = bid ∧ b.id = t.batch) ∧
     (∀ t : TestFailure, t ∈ (runOps db [Op.deleteBatch bid]).testFailures ↔
        t ∈ db.testFailures ∧ ¬ ∃ b ∈ db.batches, b.id = bid ∧ b.id = t.batch) ∧
     (∀ s : TestFailureState, s ∈ (runOps db [Op.deleteBatch bid]).testFailureStates ↔
        s ∈ db.testFailureStates ∧
        ¬ ∃ f ∈ db.testFailures,
            (∃ b ∈ db.batches, b.id = bid ∧ b.id = f.batch) ∧ f.id = s.test_failure)) ∧
    (((runOps db [Op.deleteTestFailure fid]).users = db.users) ∧
     ((runOps db [Op.deleteTestFailure fid]).archs = db.archs) ∧
     ((runOps db [Op.deleteTestFailure fid]).hosts = db.hosts) ∧
     ((runOps db [Op.deleteTestFailure fid]).batches = db.batches) ∧
     ((runOps db [Op.deleteTestFailure fid]).opcodes = db.opcodes) ∧
     ((runOps db [Op.deleteTestFailure fid]).testSuccesses = db.testSuccesses) ∧
     (∀ t : TestFailure, t ∈ (runOps db [Op.deleteTestFailure fid]).testFailures ↔
        t ∈ db.testFailures ∧ t.id ≠ fid) ∧
     (∀ s : TestFailureState, s ∈ (runOps db [Op.deleteTestFailure fid]).testFailureStates ↔
        s ∈ db.testFailureStates ∧
        ¬ ∃ f ∈ db.testFailures, f.id = fid ∧ f.id = s.test_failure)) ∧
    (((runOps db [Op.deleteHost hid]).users = db.users) ∧
     ((runOps db [Op.deleteHost hid]).archs = db.archs) ∧
     ((runOps db [Op.deleteHost hid]).opcodes = db.opcodes) ∧
     (∀ h0 : Host, h0 ∈ (runOps db [Op.deleteHost hid]).hosts ↔
        h0 ∈ db.hosts ∧ h0.id ≠ hid) ∧
     (∀ b : Batch, b ∈ (runOps db [Op.deleteHost hid]).batches ↔
        b ∈ db.batches ∧ ¬ ∃ h0 ∈ db.hosts, h0.id = hid ∧ h0.id = b.testing_host) ∧
     (∀ t : TestSuccess, t ∈ (runOps db [Op.deleteHost hid]).testSuccesses ↔
        t ∈ db.testSuccesses ∧
        ¬ ∃ b ∈ db.batches,
            (∃ h0 ∈ db.hosts, h0.id = hid ∧ h0.id = b.testing_host) ∧ b.id = t.batch) ∧
     (∀ t : TestFailure, t ∈ (runOps db [Op.deleteHost hid]).testFailures ↔
        t ∈ db.testFailures ∧
        ¬ ∃ b ∈ db.batches,
            (∃ h0 ∈ db.hosts, h0.id = hid ∧ h0.id = b.testing_host) ∧ b.id = t.batch) ∧
     (∀ s : TestFailureState, s ∈ (runOps db [Op.deleteHost hid]).testFailureStates ↔
        s ∈ db.testFailureStates ∧
        ¬ ∃ f ∈ db.testFailures,
            (∃ b ∈ db.batches,
               (∃ h0 ∈ db.hosts, h0.id = hid ∧ h0.id = b.testing_host) ∧ b.id = f.batch) ∧
            f.id = s.test_failure)) := by
  intro db bid fid hid
  refine ⟨⟨?_, ?_, ?_, ?_, ?_, ?_, ?_, ?_⟩, ⟨?_, ?_, ?_, ?_, ?_, ?_, ?_, ?_⟩,
          ⟨?_, ?_, ?_, ?_, ?_, ?_, ?_, ?_⟩⟩
  · show (cascadeDelete db { batches := [bid] }).users = db.users
    rw [cascadeDelete]
    exact List.filter_eq_self.mpr (fun u _ => by simp [userDead])
  · show (cascadeDelete db { batches := [bid] }).archs = db.archs
    rw [cascadeDelete]
    exact List.filter_eq_self.mpr (fun a _ => by simp [archDead])
  · show (cascadeDelete db { batches := [bid] }).hosts = db.hosts
    rw [cascadeDelete]
    exact List.filter_eq_self.mpr (fun h0 _ => by simp [hostDead])
  · show (cascadeDelete db { batches := [bid] }).opcodes = db.opcodes
    rw [cascadeDelete]
    exact List.filter_eq_self.mpr (fun o _ => by simp [opcodeDead])
  · intro b
    show b ∈ (cascadeDelete db { batches := [bid] }).batches ↔ _
    rw [mem_cascade_batches]
    simp only [batchDead, mem_deadHostIds, hostDead]
    simp
  · intro t
    show t ∈ (cascadeDelete db { batches := [bid] }).testSuccesses ↔ _
    rw [mem_cascade_testSuccesses]
    simp only [testSuccessDead, mem_deadBatchIds, mem_deadOpcodeIds, batchDead,
               mem_deadHostIds, hostDead, opcodeDead]
    simp
  · intro t
    show t ∈ (cascadeDelete db { batches := [bid] }).testFailures ↔ _
    rw [mem_cascade_testFailures]
    simp only [testFailureDead, mem_deadBatchIds, mem_deadOpcodeIds, batchDead,
               mem_deadHostIds, hostDead, opcodeDead]
    simp
  · intro s
    show s ∈ (cascadeDelete db { batches := [bid] }).testFailureStates ↔ _
    rw [mem_cascade_testFailureStates]
    simp only [testFailureStateDead, mem_deadTestFailureIds, testFailureDead,
               mem_deadBatchIds, mem_deadOpcodeIds, batchDead, mem_deadHostIds,
               hostDead, opcodeDead]
    simp
  · show (cascadeDelete db { testFailures := [fid] }).users = db.users
    rw [cascadeDelete]
    exact List.filter_eq_self.mpr (fun u _ => by simp [userDead])
  · show (cascadeDelete db { testFailures := [fid] }).archs = db.archs
    rw [cascadeDelete]
    exact List.filter_eq_self.mpr (fun a _ => by simp [archDead])
  · show (cascadeDelete db { testFailures := [fid] }).hosts = db.hosts
    rw [cascadeDelete]
    exact List.filter_eq_self.mpr (fun h0 _ => by simp [hostDead])
  · show (cascadeDelete db { testFailures := [fid] }).batches = db.batches
    rw [cascadeDelete]
    exact List.filter_eq_self.mpr (fun b _ => by
      simp [batchDead, mem_deadHostIds, hostDead])
  · show (cascadeDelete db { testFailures := [fid] }).opcodes = db.opcodes
    rw [cascadeDelete]
    exact List.filter_eq_self.mpr (fun o _ => by simp [opcodeDead])
  · show (cascadeDelete db { testFailures := [fid] }).testSuccesses = db.testSuccesses
    rw [cascadeDelete]
    exact List.filter_eq_self.mpr (fun t _ => by
      simp [testSuccessDead, mem_deadBatchIds, mem_deadOpcodeIds, batchDead,
            mem_deadHostIds, hostDead, opcodeDead])
  · intro t
    show t ∈ (cascadeDelete db { testFailures := [fid] }).testFailures ↔ _
    rw [mem_cascade_testFailures]
    simp only [testFailureDead, mem_deadBatchIds, mem_deadOpcodeIds, batchDead,
               mem_deadHostIds, hostDead, opcodeDead]
    simp
  · intro s
    show s ∈ (cascadeDelete db { testFailures := [fid] }).testFailureStates ↔ _
    rw [mem_cascade_testFailureStates]
    simp only [testFailureStateDead, mem_deadTestFailureIds, testFailureDead,
               mem_deadBatchIds, mem_deadOpcodeIds, batchDead, mem_deadHostIds,
               hostDead, opcodeDead]
    simp
  · show (cascadeDelete db { hosts := [hid] }).users = db.users
    rw [cascadeDelete]
    exact List.filter_eq_self.mpr (fun u _ => by simp [userDead])
  · show (cascadeDelete db { hosts := [hid] }).archs = db.archs
    rw [cascadeDelete]
    exact List.filter_eq_self.mpr (fun a _ => by simp [archDead])
  · show (cascadeDelete db { hosts := [hid] }).opcodes = db.opcodes
    rw [cascadeDelete]
    exact List.filter_eq_self.mpr (fun o _ => by simp [opcodeDead])
  · intro h0
    show h0 ∈ (cascadeDelete db { hosts := [hid] }).hosts ↔ _
    rw [mem_cascade_hosts]
    simp [hostDead]
  · intro b
    show b ∈ (cascadeDelete db { hosts := [hid] }).batches ↔ _
    rw [mem_cascade_batches]
    simp only [batchDead, mem_deadHostIds, hostDead]
    simp
  · intro t
    show t ∈ (cascadeDelete db { hosts := [hid] }).testSuccesses ↔ _
    rw [mem_cascade_testSuccesses]
    simp only [testSuccessDead, mem_deadBatchIds, mem_deadOpcodeIds, batchDead,
               mem_deadHostIds, hostDead, opcodeDead]
    simp
  · intro t
    show t ∈ (cascadeDelete db { hosts := [hid] }).testFailures ↔ _
    rw [mem_cascade_testFailures]
    simp only [testFailureDead, mem_deadBatchIds, mem_deadOpcodeIds, batchDead,
               mem_deadHostIds, hostDead, opcodeDead]
    simp
  · intro s
    show s ∈ (cascadeDelete db { hosts := [hid] }).testFailureStates ↔ _
    rw [mem_cascade_testFailureStates]
    simp only [testFailureStateDead, mem_deadTestFailureIds, testFailureDead,
               mem_deadBatchIds, mem_deadOpcodeIds, batchDead, mem_deadHostIds,
               hostDead, opcodeDead]
    simp

/-- C6: every reachable state respects the declared max_length bounds
(username 64, Arch.name 64, hostname 128, fuzzer_host 128, Opcode.name
128, pretty 256, location 128, expected_value and actual_value 256),
while TestFailure.arguments is unbounded: a TestFailure insert succeeds
for an arbitrary arguments string. -/
theorem c6_declared_lengths :
    (∀ db, Reachable db → LengthsOK db) ∧
    (∀ db b o p q, p.length ≤ 256 → hasBatch db b → hasOpcode db o →
       (applyOp db (Op.insertTestFailure b o p q)).isSome = true) := by
  constructor
  · exact fun db h => reachable_invariant lengthsOK_preserved lengthsOK_empty db h
  · intro db b o p q hp hB hO
    simp only [applyOp]
    rw [if_pos ⟨hp, hB, hO⟩]
    rfl

/-- Witness for C6 on the worked example: the reached state satisfies
the length bounds, and a TestFailure with a 300-character arguments
string is accepted. -/
theorem c6_witness :
    LengthsOK dbM ∧
    (applyOp dbM (Op.insertTestFailure 4 5 ("p")
       (String.mk (List.replicate 300 ('a'))))).isSome = true :=
  ⟨c6_declared_lengths.1 dbM ⟨masterOps, rfl⟩,
   c6_declared_lengths.2 dbM 4 5 ("p") (String.mk (List.replicate 300 ('a')))
     (by decide) (by decide) (by decide)⟩

/-- C7: a TestFailure row may have zero, one or many TestFailureState
rows: a reachable state contains a TestFailure with none and another
TestFailure with two distinct identical-valued states, and inserting a
further TestFailureState for an existing TestFailure always succeeds
(no uniqueness or cardinality constraint on the association). -/
theorem c7_failure_states_multiplicity :
    (∃ db, Reachable db ∧ ∃ f ∈ db.testFailures,
       ∀ s ∈ db.testFailureStates, s.test_failure ≠ f.id) ∧
    (∃ db, Reachable db ∧ ∃ f ∈ db.testFailures,
       ∃ s1 ∈ db.testFailureStates, ∃ s2 ∈ db.testFailureStates,
         s1.id ≠ s2.id ∧ s1.test_failure = f.id ∧ s2.test_failure = f.id ∧
         s1.location = s2.location ∧ s1.expected_value = s2.expected_value ∧
         s1.actual_value = s2.actual_value) ∧
    (∀ db f l e v, l.length ≤ 128 → e.length ≤ 256 → v.length ≤ 256 →
       hasTestFailure db f →
       (applyOp db (Op.insertTestFailureState f l e v)).isSome = true) := by
  refine ⟨⟨dbM, ⟨masterOps, rfl⟩, ?_⟩, ⟨dbM, ⟨masterOps, rfl⟩, ?_⟩, ?_⟩
  · decide
  · decide
  · intro db f l e v hl he hv hF
    simp only [applyOp]
    rw [if_pos ⟨hl, he, hv, hF⟩]
    rfl

/-- Witness for C7 on the worked example: a third state for the
TestFailure with key 9 is accepted. -/
theorem c7_witness :
    (applyOp dbM (Op.insertTestFailureState 9 ("cpsr") ("0") ("1"))).isSome = true :=
  c7_failure_states_multiplicity.2.2 dbM 9 ("cpsr") ("0") ("1")
    (by decide) (by decide) (by decide) (by decide)

/-- C8: deleting a User removes exactly the Batch rows referencing it
and, transitively, their TestSuccess, TestFailure and TestFailureState
rows; Arch, Host and Opcode rows are untouched. -/
theorem c8_deleteUser_cascades : ∀ (db : DB) (uid : Nat),
    ((runOps db [Op.deleteUser uid]).archs = db.archs) ∧
    ((runOps db [Op.deleteUser uid]).hosts = db.hosts) ∧
    ((runOps db [Op.deleteUser uid]).opcodes = db.opcodes) ∧
    (∀ u : User, u ∈ (runOps db [Op.deleteUser uid]).users ↔ u ∈ db.users ∧ u.id ≠ uid) ∧
    (∀ b : Batch, b ∈ (runOps db [Op.deleteUser uid]).batches ↔
       b ∈ db.batches ∧ b.user ≠ uid) ∧
    (∀ t : TestSuccess, t ∈ (runOps db [Op.deleteUser uid]).testSuccesses ↔
       t ∈ db.testSuccesses ∧ ¬ ∃ b ∈ db.batches, b.user = uid ∧ b.id = t.batch) ∧
    (∀ t : TestFailure, t ∈ (runOps db [Op.deleteUser uid]).testFailures ↔
       t ∈ db.testFailures ∧ ¬ ∃ b ∈ db.batches, b.user = uid ∧ b.id = t.batch) ∧
    (∀ s : TestFailureState, s ∈ (runOps db [Op.deleteUser uid]).testFailureStates ↔
       s ∈ db.testFailureStates ∧
       ¬ ∃ f ∈ db.testFailures,
           (∃ b ∈ db.batches, b.user = uid ∧ b.id = f.batch) ∧ f.id = s.test_failure) := by
  intro db uid
  refine ⟨?_, ?_, ?_, ?_, ?_, ?_, ?_, ?_⟩
  · show (cascadeDelete db { users := [uid] }).archs = db.archs
    rw [cascadeDelete]
    exact List.filter_eq_self.mpr (fun a _ => by simp [archDead])
  · show (cascadeDelete db { users := [uid] }).hosts = db.hosts
    rw [cascadeDelete]
    exact List.filter_eq_self.mpr (fun h0 _ => by simp [hostDead])
  · show (cascadeDelete db { users := [uid] }).opcodes = db.opcodes
    rw [cascadeDelete]
    exact List.filter_eq_self.mpr (fun o _ => by simp [opcodeDead])
  · intro u
    show u ∈ (cascadeDelete db { users := [uid] }).users ↔ _
    rw [mem_cascade_users]
    simp [userDead]
  · intro b
    show b ∈ (cascadeDelete db { users := [uid] }).batches ↔ _
    rw [mem_cascade_batches]
    simp only [batchDead, mem_deadHostIds, hostDead]
    simp
  · intro t
    show t ∈ (cascadeDelete db { users := [uid] }).testSuccesses ↔ _
    rw [mem_cascade_testSuccesses]
    simp only [testSuccessDead, mem_deadBatchIds, mem_deadOpcodeIds, batchDead,
               mem_deadHostIds, hostDead, opcodeDead]
    simp
  · intro t
    show t ∈ (cascadeDelete db { users := [uid] }).testFailures ↔ _
    rw [mem_cascade_testFailures]
    simp only [testFailureDead, mem_deadBatchIds, mem_deadOpcodeIds, batchDead,
               mem_deadHostIds, hostDead, opcodeDead]
    simp
  · intro s
    show s ∈ (cascadeDelete db { users := [uid] }).testFailureStates ↔ _
    rw [mem_cascade_testFailureStates]
    simp only [testFailureStateDead, mem_deadTestFailureIds, testFailureDead,
               mem_deadBatchIds, mem_deadOpcodeIds, batchDead, mem_deadHostIds,
               hostDead, opcodeDead]
    simp

/-- C9: Opcode.name carries no uniqueness constraint: a reachable state
holds two distinct Opcode rows with the same name on the same Arch, and
inserting an Opcode whose name duplicates an existing one succeeds. -/
theorem c9_opcode_names_duplicate :
    (∃ db, Reachable db ∧ ∃ o1 ∈ db.opcodes, ∃ o2 ∈ db.opcodes,
       o1.id ≠ o2.id ∧ o1.name = o2.name ∧ o1.arch = o2.arch) ∧
    (∀ db name arch, name.length ≤ 128 → hasArch db arch →
       (∃ o ∈ db.opcodes, o.name = name) →
       (applyOp db (Op.insertOpcode name arch)).isSome = true) := by
  refine ⟨⟨dbM, ⟨masterOps, rfl⟩, ?_⟩, ?_⟩
  · decide
  · intro db name arch hlen hA _
    simp only [applyOp]
    rw [if_pos ⟨hlen, hA⟩]
    rfl

/-- Witness for C9 on the worked example: a third Opcode named ADD on
the same Arch is accepted. -/
theorem c9_witness : (applyOp dbM (Op.insertOpcode ("ADD") 1)).isSome = true :=
  c9_opcode_names_duplicate.2 dbM ("ADD") 1 (by decide) (by decide) (by decide)

/-- C10: TestSuccess carries no constraint beyond its foreign keys: an
insert succeeds for every count value (the quantifier ranges over all
integers, including zero and negatives), and a reachable state holds
two distinct TestSuccess rows on the same (Batch, Opcode) pair, one
with count zero and one with a negative count. -/
theorem c10_testSuccess_unconstrained :
    (∀ db b o (c : Int), hasBatch db b → hasOpcode db o →
       (applyOp db (Op.insertTestSuccess b o c)).isSome = true) ∧
    (∃ db, Reachable db ∧ ∃ t1 ∈ db.testSuccesses, ∃ t2 ∈ db.testSuccesses,
       t1.id ≠ t2.id ∧ t1.batch = t2.batch ∧ t1.opcode = t2.opcode) ∧
    (∃ db, Reachable db ∧ ∃ t ∈ db.testSuccesses, t.count = 0) ∧
    (∃ db, Reachable db ∧ ∃ t ∈ db.testSuccesses, t.count < 0) := by
  refine ⟨?_, ⟨dbM, ⟨masterOps, rfl⟩, ?_⟩, ⟨dbM, ⟨masterOps, rfl⟩, ?_⟩,
          ⟨dbM, ⟨masterOps, rfl⟩, ?_⟩⟩
  · intro db b o c hB hO
    simp only [applyOp]
    rw [if_pos ⟨hB, hO⟩]
    rfl
  · decide
  · decide
  · decide

/-- Witness for C10 on the worked example: a TestSuccess with count -5
on an existing (Batch, Opcode) pair is accepted. -/
theorem c10_witness : (applyOp dbM (Op.insertTestSuccess 4 5 (-5))).isSome = true :=
  c10_testSuccess_unconstrained.1 dbM 4 5 (-5) (by decide) (by decide)

end Fuzzermon
